import Mathlib

/-!
Verification of the ad-hoc table ingestion pipeline (Lightdash adhoc-tables core).

Shallow embedding of:
  * the identifier sanitizers
    (PostgresAdhocTableHelper.sanitizeColumnName, BigQueryAdhocTableHelper.sanitizeColumnName,
     AdhocTableExploreService.sanitizeFieldName),
  * the file parser / type-inference engine (FileParserService),
  * the Explore generator (AdhocTableExploreService.generateExplore),
  * the catalog indexer (AdhocTableCatalogService),
  * the permission service (AdhocTablePermissionService),
  * the ingestion orchestrator (AdhocTableService.createFromFile / deleteTable /
    getTable / listByProject),
over an explicit database-state record.  Strings are modelled over their character
lists; the JavaScript regex pipelines are translated step by step for ASCII input
(every character the sanitizers keep is ASCII, and non-ASCII characters are replaced
by an underscore exactly as the regexes do).
-/

namespace Adhoc

/-! ## Character classes used by the JS regexes (ASCII) -/

def isUpperAZ (c : Char) : Bool := 65 ≤ c.toNat && c.toNat ≤ 90

def isLowerAZ (c : Char) : Bool := 97 ≤ c.toNat && c.toNat ≤ 122

def isDigit09 (c : Char) : Bool := 48 ≤ c.toNat && c.toNat ≤ 57

/-- Model of `String.prototype.toLowerCase` on one ASCII character. -/
def lowerChar (c : Char) : Char :=
  if isUpperAZ c then Char.ofNat (c.toNat + 32) else c

def lowerStr (l : List Char) : List Char := l.map lowerChar

/-- Characters kept by `/[^a-zA-Z0-9_]/g` (the warehouse helpers). -/
def isWordChar (c : Char) : Bool := isUpperAZ c || isLowerAZ c || isDigit09 c || c = '_'

/-- Characters kept by `/[^a-z0-9_]/g` (the Explore field sanitizer, post-lowercase). -/
def isFieldChar (c : Char) : Bool := isLowerAZ c || isDigit09 c || c = '_'

/-! ## Warehouse-helper column sanitizer
`PostgresAdhocTableHelper.sanitizeColumnName` (limit 63),
`BigQueryAdhocTableHelper.sanitizeColumnName` (limit 128),
`RedshiftAdhocTableHelper.sanitizeColumnName` (limit 127):
  name.replace(/[^a-zA-Z0-9_]/g, '_').replace(/^[^a-zA-Z_]/, '_')
  then .replace(/^_+|_+$/g, ''), 'column' if empty, .substring(0, limit). -/

def replaceNonWord (l : List Char) : List Char :=
  l.map (fun c => if isWordChar c then c else '_')

/-- `.replace(/^[^a-zA-Z_]/, '_')` : non-global, so only the first character. -/
def fixLeadChar (l : List Char) : List Char :=
  match l with
  | [] => []
  | c :: rest =>
      if isUpperAZ c || isLowerAZ c || c = '_' then c :: rest else '_' :: rest

def dropLeadUnderscores (l : List Char) : List Char :=
  l.dropWhile (fun c => c = '_')

def dropTrailUnderscores (l : List Char) : List Char :=
  (l.reverse.dropWhile (fun c => c = '_')).reverse

/-- `.replace(/^_+|_+$/g, '')`. -/
def stripUnderscores (l : List Char) : List Char :=
  dropTrailUnderscores (dropLeadUnderscores l)

def sanitizeColumnNameCore (limit : Nat) (l : List Char) : List Char :=
  let s1 := fixLeadChar (replaceNonWord l)
  let s2 := stripUnderscores s1
  let s3 := if s2.isEmpty then "column".data else s2
  s3.take limit

def pgSanitizeColumnName (name : String) : String :=
  ⟨sanitizeColumnNameCore 63 name.data⟩

def bqSanitizeColumnName (name : String) : String :=
  ⟨sanitizeColumnNameCore 128 name.data⟩

/-! ## Explore field sanitizer
`AdhocTableExploreService.sanitizeFieldName`:
  columnName.toLowerCase().replace(/[^a-z0-9_]/g, '_').replace(/_+/g, '_')
    .replace(/^_+|_+$/g, '');
  prefix '_' if it starts with a digit; if empty, 'column_' + uuidv4().slice(0, 8).
The random uuid slice is modelled as an explicitly supplied string `fresh`. -/

/-- `.replace(/_+/g, '_')` : collapse each run of underscores to a single one.
The flag records whether the previous character was part of an underscore run. -/
def collapseAux : Bool → List Char → List Char
  | _, [] => []
  | prevRun, c :: rest =>
      if c = '_' then
        if prevRun then collapseAux true rest
        else '_' :: collapseAux true rest
      else c :: collapseAux false rest

def collapseUnderscores (l : List Char) : List Char := collapseAux false l

def sanitizeFieldNameCore (fresh : List Char) (l : List Char) : List Char :=
  let s1 := (lowerStr l).map (fun c => if isFieldChar c then c else '_')
  let s2 := stripUnderscores (collapseUnderscores s1)
  let s3 :=
    match s2 with
    | [] => ([] : List Char)
    | c :: rest => if isDigit09 c then '_' :: c :: rest else c :: rest
  if s3.isEmpty then "column_".data ++ fresh else s3

def sanitizeFieldName (fresh : String) (name : String) : String :=
  ⟨sanitizeFieldNameCore fresh.data name.data⟩

/-! ### Head-preservation lemmas for the sanitizer pipelines -/

theorem digit_not_underscore {c : Char} (h : isDigit09 c = true) : c ≠ '_' := by
  intro he
  subst he
  simp [isDigit09] at h

theorem digit_lowerChar {c : Char} (h : isDigit09 c = true) : lowerChar c = c := by
  unfold lowerChar
  have hn : isUpperAZ c ≠ true := by
    intro hu
    unfold isDigit09 at h
    unfold isUpperAZ at hu
    rw [Bool.and_eq_true, decide_eq_true_eq, decide_eq_true_eq] at h hu
    omega
  simp [hn]

theorem collapseUnderscores_cons_of_ne {c : Char} (h : c ≠ '_') (t : List Char) :
    collapseUnderscores (c :: t) = c :: collapseUnderscores t := by
  unfold collapseUnderscores
  conv_lhs => unfold collapseAux
  simp [h]

theorem dropWhile_append_last {p : Char → Bool} {c : Char} (h : p c = false)
    (xs : List Char) :
    List.dropWhile p (xs ++ [c]) = List.dropWhile p xs ++ [c] := by
  induction xs with
  | nil => simp [List.dropWhile, h]
  | cons a t ih =>
      simp only [List.cons_append, List.dropWhile]
      cases ha : p a <;> simp [ha, ih]

theorem dropTrailUnderscores_cons_of_ne {c : Char} (h : c ≠ '_') (t : List Char) :
    dropTrailUnderscores (c :: t) = c :: dropTrailUnderscores t := by
  unfold dropTrailUnderscores
  have hc : (decide (c = '_')) = false := by simp [h]
  rw [List.reverse_cons, dropWhile_append_last hc, List.reverse_append]
  simp

theorem stripUnderscores_cons_of_ne {c : Char} (h : c ≠ '_') (t : List Char) :
    stripUnderscores (c :: t) = c :: dropTrailUnderscores t := by
  unfold stripUnderscores dropLeadUnderscores
  have hc : (decide (c = '_')) = false := by simp [h]
  rw [List.dropWhile_cons]
  simp only [hc, Bool.false_eq_true, if_false]
  exact dropTrailUnderscores_cons_of_ne h t

/-! ## File parser and type inference (`FileParserService`)

A parsed row (one element of `results.data` from `Papa.parse(text, {header: true})`,
or of `XLSX.utils.sheet_to_json(sheet)`) is modelled as an association list from
header name to cell string; `row[header]` on a missing key (JS `undefined`) is
`none`.  The external CSV/XLSX tokenizers are oracles: the embedding starts from
the row list they produce. -/

abbrev Row := List (String × String)

def lookupCell (row : Row) (h : String) : Option String := row.lookup h

/-- JS `String.prototype.trim` restricted to ASCII whitespace. -/
def jsTrim (l : List Char) : List Char :=
  ((l.dropWhile Char.isWhitespace).reverse.dropWhile Char.isWhitespace).reverse

/-- `String(value).trim().toLowerCase()` for a string-valued cell. -/
def normValue (s : String) : String := ⟨lowerStr (jsTrim s.data)⟩

/-- The boolean literal test of `detectColumnType` (applied to the normalised value). -/
def isBooleanLiteral (s : String) : Bool :=
  s = "true" || s = "false" || s = "1" || s = "0" || s = "yes" || s = "no"

/-! Model of `!isNaN(Number(strValue)) && strValue !== ''` on the trimmed,
lowercased value: an optional sign followed by a decimal literal with optional
fraction and exponent, or a `0x`/`0b`/`0o` radix literal (no sign).  Lowercased
`infinity` is NaN for JS `Number`, so it is rightly excluded. -/

def isHexDigit (c : Char) : Bool := isDigit09 c || (97 ≤ c.toNat && c.toNat ≤ 102)

def isBinDigit (c : Char) : Bool := c = '0' || c = '1'

def isOctDigit (c : Char) : Bool := 48 ≤ c.toNat && c.toNat ≤ 55

/-- Digits, optional dot and more digits, needing at least one digit overall. -/
def isUnsignedDecimal (l : List Char) : Bool :=
  let p := l.span isDigit09
  match p.2 with
  | [] => !p.1.isEmpty
  | '.' :: frac => (!p.1.isEmpty || !frac.isEmpty) && frac.all isDigit09
  | _ => false

def isExponentPart (l : List Char) : Bool :=
  match l with
  | '+' :: d => !d.isEmpty && d.all isDigit09
  | '-' :: d => !d.isEmpty && d.all isDigit09
  | d => !d.isEmpty && d.all isDigit09

def isMantissaExp (l : List Char) : Bool :=
  let p := l.span (fun c => c ≠ 'e')
  match p.2 with
  | [] => isUnsignedDecimal p.1
  | _ :: expPart => isUnsignedDecimal p.1 && isExponentPart expPart

def jsNumeric (l : List Char) : Bool :=
  match l with
  | '0' :: 'x' :: rest => !rest.isEmpty && rest.all isHexDigit
  | '0' :: 'b' :: rest => !rest.isEmpty && rest.all isBinDigit
  | '0' :: 'o' :: rest => !rest.isEmpty && rest.all isOctDigit
  | '+' :: rest => isMantissaExp rest
  | '-' :: rest => isMantissaExp rest
  | _ => isMantissaExp l

def jsNumberTest (s : String) : Bool := s ≠ "" && jsNumeric s.data

/-! The four date regexes of `isValidDate`; each is an unanchored-at-the-end
prefix test, so a trailing `\d{m,n}` only requires `m` leading digits and
a `\d{1,2}` followed by a separator matches a run of one or two digits. -/

def digitRun (l : List Char) : Nat × List Char :=
  let p := l.span isDigit09
  (p.1.length, p.2)

/-- `/^\d{4}-\d{2}-\d{2}/` -/
def datePatIso (l : List Char) : Bool :=
  let r1 := digitRun l
  match r1.2 with
  | '-' :: rest1 =>
      let r2 := digitRun rest1
      match r2.2 with
      | '-' :: rest2 => r1.1 = 4 && r2.1 = 2 && 2 ≤ (digitRun rest2).1
      | _ => false
  | _ => false

/-- `/^\d{2}\/\d{2}\/\d{4}/` -/
def datePatSlash (l : List Char) : Bool :=
  let r1 := digitRun l
  match r1.2 with
  | '/' :: rest1 =>
      let r2 := digitRun rest1
      match r2.2 with
      | '/' :: rest2 => r1.1 = 2 && r2.1 = 2 && 4 ≤ (digitRun rest2).1
      | _ => false
  | _ => false

/-- `/^\d{1,2}-\d{1,2}-\d{2,4}/` and the same pattern with dots. -/
def datePatSep (sep : Char) (l : List Char) : Bool :=
  let r1 := digitRun l
  match r1.2 with
  | c1 :: rest1 =>
      if c1 = sep then
        let r2 := digitRun rest1
        match r2.2 with
        | c2 :: rest2 =>
            if c2 = sep then
              (1 ≤ r1.1 && r1.1 ≤ 2) && (1 ≤ r2.1 && r2.1 ≤ 2) &&
                2 ≤ (digitRun rest2).1
            else false
        | _ => false
      else false
  | _ => false

def isValidDate (l : List Char) : Bool :=
  datePatIso l || datePatSlash l || datePatSep '-' l || datePatSep '.' l

inductive ColType
  | string
  | number
  | date
  | boolean
deriving DecidableEq, Repr

/-- `FileParserService.detectColumnType`.  The per-type hit counts accumulated in
the loop are the filter lengths; the float comparison `score >= values.length * 0.8`
is expressed exactly in the rationals as `5 * score ≥ 4 * values.length`
(for the at most 100 sampled values the double rounding of `length * 0.8`
agrees with the exact threshold). -/
def detectColumnType (values : List String) : ColType :=
  if values.length = 0 then .string
  else
    let boolScore := (values.filter (fun v => isBooleanLiteral (normValue v))).length
    let dateScore := (values.filter (fun v => isValidDate (normValue v).data)).length
    let numScore := (values.filter (fun v => jsNumberTest (normValue v))).length
    if 5 * boolScore ≥ 4 * values.length then .boolean
    else if 5 * dateScore ≥ 4 * values.length then .date
    else if 5 * numScore ≥ 4 * values.length then .number
    else .string

def mapToWarehouseType (t : ColType) : String :=
  match t with
  | .string => "STRING"
  | .number => "NUMERIC"
  | .date => "TIMESTAMP"
  | .boolean => "BOOLEAN"

structure ColumnInference where
  name : String
  type : ColType
  displayType : String
  nullable : Bool
  sampleValues : List String
deriving DecidableEq, Repr

/-- The per-header body of `FileParserService.inferColumnTypes`:
sample the first 100 rows, drop null/undefined/empty cells, classify,
and set `nullable` when fewer sampled-and-filtered values exist than rows. -/
def sampleCell (h : String) (row : Row) : Option String :=
  match lookupCell row h with
  | some s => if s = "" then none else some s
  | none => none

def sampleValuesFor (rows : List Row) (h : String) : List String :=
  (rows.take 100).filterMap (sampleCell h)

def inferColumn (rows : List Row) (h : String) : ColumnInference :=
  let sv := sampleValuesFor rows h
  { name := h
    type := detectColumnType sv
    displayType := mapToWarehouseType (detectColumnType sv)
    nullable := decide (sv.length < rows.length)
    sampleValues := sv.take 5 }

def inferColumnTypes (rows : List Row) (headers : List String) : List ColumnInference :=
  headers.map (inferColumn rows)

/-- A cell that survives the sampling filter: present and non-empty. -/
def isPresentNonEmpty (v : Option String) : Bool :=
  match v with
  | some s => s ≠ ""
  | none => false

inductive AdhocError
  | emptyInput
  | parseError
  | notFound
  | forbidden
  | warehouseCreation
  | unsupported
deriving DecidableEq, Repr

structure ParseResult where
  headers : List String
  rows : List Row
  columns : List ColumnInference
deriving DecidableEq, Repr

/-- `FileParserService.parseCSV` after the `Papa.parse` oracle has produced
`results.data`: reject when no data rows; headers are the keys of the first row.
A header-only CSV yields `results.data = []` under `header: true`, so it lands in
the empty rejection (`CSV file is empty`, the spec's `EmptyInputError`). -/
def parseCSV (data : List Row) : Except AdhocError ParseResult :=
  if data.length = 0 then .error .emptyInput
  else
    let headers := (data.headD []).map Prod.fst
    .ok ⟨headers, data, inferColumnTypes data headers⟩

/-- `FileParserService.parseExcel` after the `sheet_to_json` oracle: the empty
sheet rejection (`Excel sheet is empty`) is the same empty-input failure. -/
def parseExcel (data : List Row) : Except AdhocError ParseResult :=
  if data.length = 0 then .error .emptyInput
  else
    let headers := (data.headD []).map Prod.fst
    .ok ⟨headers, data, inferColumnTypes data headers⟩

/-! ## Explore generation (`AdhocTableExploreService`) -/

/-- A `ColumnDefinition` as consumed by `generateExplore` (name, semantic type
string, nullable). -/
structure ColumnDefinition where
  name : String
  type : String
  nullable : Bool
deriving DecidableEq, Repr

structure Dimension where
  name : String
  label : String
  table : String
  fieldType : String
  dimType : String
  compiledSql : String
deriving DecidableEq, Repr

structure Metric where
  name : String
  label : String
  table : String
  fieldType : String
  metricType : String
  compiledSql : String
deriving DecidableEq, Repr

/-- The one base table of a generated Explore (`explore.tables[explore.baseTable]`);
JS objects are insertion-ordered association lists. -/
structure Explore where
  name : String
  label : String
  baseTable : String
  targetDatabase : String
  dimensions : List (String × Dimension)
  metrics : List (String × Metric)
deriving DecidableEq, Repr

/-- JS `{...acc, [k]: v}`: replace in place when the key exists, else append. -/
def upsert {α : Type} (l : List (String × α)) (k : String) (v : α) : List (String × α) :=
  if l.any (fun p => p.1 = k) then
    l.map (fun p => if p.1 = k then (k, v) else p)
  else l ++ [(k, v)]

/-- `mapColumnTypeToDimensionType` (`DimensionType` enum values). -/
def mapColumnTypeToDimensionType (columnType : String) : String :=
  let t := ⟨lowerStr columnType.data⟩
  if t = "number" then "number"
  else if t = "date" then "date"
  else if t = "boolean" then "boolean"
  else "string"

def escapeIdentifier (identifier : String) : String :=
  ⟨identifier.data.foldr (fun c acc => if c = '"' then '"' :: '"' :: acc else c :: acc) []⟩

def mkDimension (tableName : String) (fresh : String) (col : ColumnDefinition) : Dimension :=
  { name := sanitizeFieldName fresh col.name
    label := col.name
    table := tableName
    fieldType := "dimension"
    dimType := mapColumnTypeToDimensionType col.type
    compiledSql := "\"" ++ tableName ++ "\".\"" ++ escapeIdentifier col.name ++ "\"" }

/-- `generateDimensions`: reduce over the columns into a keyed object. -/
def generateDimensions (fresh : String) (columns : List ColumnDefinition)
    (tableName : String) : List (String × Dimension) :=
  columns.foldl
    (fun acc col => upsert acc (sanitizeFieldName fresh col.name) (mkDimension tableName fresh col))
    []

/-- `generateMetrics`: the single built-in `row_count` metric (`MetricType.COUNT`). -/
def generateMetrics (tableName : String) : List (String × Metric) :=
  [("row_count",
    { name := "row_count"
      label := "Row Count"
      table := tableName
      fieldType := "metric"
      metricType := "count"
      compiledSql := "COUNT(*)" })]

/-- `AdhocTableExploreService.generateExplore`.  `fresh` stands for the
`uuidv4().slice(0, 8)` draw used by `sanitizeFieldName` on an empty result. -/
def generateExplore (fresh : String) (adhocTableUuid : String)
    (tableNameWithSchema : String) (columns : List ColumnDefinition)
    (warehouseType : String) : Explore :=
  { name := adhocTableUuid
    label := tableNameWithSchema
    baseTable := adhocTableUuid
    targetDatabase := warehouseType
    dimensions := generateDimensions fresh columns tableNameWithSchema
    metrics := generateMetrics tableNameWithSchema }

/-! ## Database state and the services over it

One record per relevant table of the metadata store.  Stored enum values are the
strings the code actually writes (`AdhocTableScope.PERSONAL = 'personal'`,
`AdhocTableScope.SHARED = 'shared'`, per `types.ts` and the
`201125_create_adhoc_tables` migration). -/

structure FileMetadata where
  fileName : String
  fileSize : Nat
  fileType : String
  columnCount : Nat
  rowCount : Nat
deriving DecidableEq, Repr

structure AdhocRow where
  uuid : String
  projectUuid : String
  organizationUuid : String
  name : String
  description : String
  warehouseTableName : String
  warehouseType : String
  scope : String
  retention : String
  retentionDays : Option Nat
  createdBy : String
  createdAt : Nat
  updatedAt : Nat
  deletedAt : Option Nat
  metadata : FileMetadata
deriving DecidableEq, Repr

structure CachedExplore where
  projectUuid : String
  name : String
  ceUuid : String
  explore : Explore
deriving DecidableEq, Repr

structure CatalogEntry where
  projectUuid : String
  ceUuid : String
  name : String
  entryType : String
  tableName : String
  description : String
deriving DecidableEq, Repr

structure DBState where
  adhocTables : List AdhocRow
  cachedExplores : List CachedExplore
  catalogSearch : List CatalogEntry
  projectMemberships : List (String × String)
  adhocAccess : List (String × String × String)
  warehouseTables : List String
  warehouseCalls : List String
deriving DecidableEq, Repr

/-! ## Permission service (`AdhocTablePermissionService`) -/

/-- Membership query against `project_memberships`. -/
def userCanAccessProject (projectUuid userUuid : String) (st : DBState) : Bool :=
  st.projectMemberships.any (fun m => m.1 = projectUuid && m.2 = userUuid)

/-- `.where('uuid', tableUuid).whereNull('deleted_at').first()`. -/
def findUndeleted (tableUuid : String) (st : DBState) : Option AdhocRow :=
  st.adhocTables.find? (fun r => r.uuid = tableUuid && r.deletedAt = none)

/-- `userCanAccessTable`: owner always; then the literal comparison
`table.scope === 'SHARED'` guarding the membership check; otherwise false.
The `adhoc_table_access` grants are never consulted. -/
def userCanAccessTable (tableUuid userUuid : String) (st : DBState) : Bool :=
  match findUndeleted tableUuid st with
  | none => false
  | some table =>
      if table.createdBy = userUuid then true
      else if table.scope = "SHARED" then
        userCanAccessProject table.projectUuid userUuid st
      else false

def userCanDeleteTable (tableUuid userUuid : String) (st : DBState) : Bool :=
  match findUndeleted tableUuid st with
  | none => false
  | some table => table.createdBy = userUuid

def userCanShareTable (tableUuid userUuid : String) (st : DBState) : Bool :=
  userCanDeleteTable tableUuid userUuid st

/-- Insert into `adhoc_table_access` with
`.onConflict(['adhoc_table_uuid', 'user_uuid']).merge()`. -/
def accessUpsert (l : List (String × String × String)) (t u g : String) :
    List (String × String × String) :=
  if l.any (fun a => a.1 = t && a.2.1 = u) then
    l.map (fun a => if a.1 = t && a.2.1 = u then (t, u, g) else a)
  else l ++ [(t, u, g)]

/-- `grantTableAccess`: only a principal who may share (the owner) can grant. -/
def grantTableAccess (tableUuid userUuid grantedBy : String) (st : DBState) :
    Except AdhocError DBState :=
  if userCanShareTable tableUuid grantedBy st then
    .ok { st with adhocAccess := accessUpsert st.adhocAccess tableUuid userUuid grantedBy }
  else .error .forbidden

/-! ## Catalog indexer (`AdhocTableCatalogService`) -/

def catalogKeyMatches (a b : CatalogEntry) : Bool :=
  a.projectUuid = b.projectUuid && a.name = b.name && a.ceUuid = b.ceUuid &&
    a.entryType = b.entryType

/-- `insert(...).onConflict(['project_uuid','name','cached_explore_uuid','type']).merge()`. -/
def catalogUpsert (l : List CatalogEntry) (e : CatalogEntry) : List CatalogEntry :=
  if l.any (fun c => catalogKeyMatches c e) then
    l.map (fun c => if catalogKeyMatches c e then e else c)
  else l ++ [e]

/-- One `field` catalog entry insert (name and label of a dimension or metric). -/
def catFieldStep (projectUuid ceUuid baseTableName : String) (s : DBState)
    (nameLabel : String × String) : DBState :=
  let fieldEntry : CatalogEntry :=
    { projectUuid := projectUuid
      ceUuid := ceUuid
      name := nameLabel.1
      entryType := "field"
      tableName := baseTableName
      description := nameLabel.2 }
  { s with catalogSearch := catalogUpsert s.catalogSearch fieldEntry }

/-- `registerInCatalog`: one `table` entry plus one `field` entry per dimension
and per metric of the base table, all keyed by the table's cached explore.
The caller always passes `baseTableName` (the warehouse table name), so the
`baseTableName || tableName` fallback resolves to `baseTableName`. -/
def registerInCatalog (projectUuid adhocTableUuid tableName : String)
    (explore : Explore) (baseTableName : String) (st : DBState) : DBState :=
  match st.cachedExplores.find?
      (fun ce => ce.projectUuid = projectUuid && ce.name = adhocTableUuid) with
  | none => st
  | some ce =>
      let tEntry : CatalogEntry :=
        { projectUuid := projectUuid
          ceUuid := ce.ceUuid
          name := baseTableName
          entryType := "table"
          tableName := baseTableName
          description := "Uploaded table: " ++ tableName }
      let st1 := { st with catalogSearch := catalogUpsert st.catalogSearch tEntry }
      let st2 := (explore.dimensions.map (fun d => (d.2.name, d.2.label))).foldl
        (catFieldStep projectUuid ce.ceUuid baseTableName) st1
      (explore.metrics.map (fun m => (m.2.name, m.2.label))).foldl
        (catFieldStep projectUuid ce.ceUuid baseTableName) st2

/-- `removeFromCatalog`: delete every `catalog_search` row owned by the table's
cached explore (no-op when the cached explore is absent). -/
def removeFromCatalog (projectUuid adhocTableUuid : String) (st : DBState) : DBState :=
  match st.cachedExplores.find?
      (fun ce => ce.projectUuid = projectUuid && ce.name = adhocTableUuid) with
  | none => st
  | some ce =>
      let kept := st.catalogSearch.filter
        (fun c => !(c.projectUuid = projectUuid && c.ceUuid = ce.ceUuid))
      { st with catalogSearch := kept }

/-! ## Ingestion orchestrator (`AdhocTableService`, `part_004`)

Environment values the code takes from the outside world (`gen_random_uuid()`,
`Date.now().toString(36)`, `now()`, the warehouse credentials, and the three
failure sources caught or propagated by `createFromFile`) are supplied in a
`RunCfg`. -/

structure RunCfg where
  projectExists : Bool
  organizationUuid : String
  warehouseType : String
  warehouseFails : Bool
  exploreFails : Bool
  catalogFails : Bool
  freshUuid : String
  freshCeUuid : String
  freshField : String
  timestamp36 : String
  now : Nat
deriving DecidableEq, Repr

/-- `AdhocTableCreateRequest`; `file` is the byte buffer read as a UTF-8 string
(`request.file.toString()`). -/
structure CreateRequest where
  file : String
  fileName : String
  fileType : String
  tableName : String
  description : String
  scope : String
  retention : String
  retentionDays : Option Nat
deriving DecidableEq, Repr

/-- `generateWarehouseTableName`: lowercase, `[^a-z0-9_]` to `_`, first 50 chars,
then `adhoc_<sanitized>_<uuid prefix>_<timestamp36>`. -/
def generateWarehouseTableName (tableName userUuid ts : String) : String :=
  let sanitized : String :=
    ⟨((lowerStr tableName.data).map (fun c => if isFieldChar c then c else '_')).take 50⟩
  let userPart : String := ⟨(userUuid.data.takeWhile (fun c => c ≠ '-')).take 8⟩
  "adhoc_" ++ sanitized ++ "_" ++ userPart ++ "_" ++ ts

def colTypeStr (t : ColType) : String :=
  match t with
  | .string => "string"
  | .number => "number"
  | .date => "date"
  | .boolean => "boolean"

/-- `registerExplore`: map the inferred columns to `ColumnDefinition`s with
`nullable: true`, generate the Explore, and upsert it into `cached_explore`
keyed by `(project_uuid, name = adhocTableUuid)`, returning the cached explore
uuid. -/
def registerExplore (cfg : RunCfg) (projectUuid adhocTableUuid warehouseTableName : String)
    (columns : List ColumnInference) (warehouseType : String) (st : DBState) :
    String × DBState :=
  let columnDefs := columns.map (fun c => ColumnDefinition.mk c.name (colTypeStr c.type) true)
  let explore := generateExplore cfg.freshField adhocTableUuid warehouseTableName
    columnDefs warehouseType
  match st.cachedExplores.find?
      (fun ce => ce.projectUuid = projectUuid && ce.name = adhocTableUuid) with
  | some ce =>
      let merged := st.cachedExplores.map
        (fun e =>
          if e.projectUuid = projectUuid && e.name = adhocTableUuid then
            { e with explore := explore }
          else e)
      (ce.ceUuid, { st with cachedExplores := merged })
  | none =>
      let inserted := st.cachedExplores ++
        [⟨projectUuid, adhocTableUuid, cfg.freshCeUuid, explore⟩]
      (cfg.freshCeUuid, { st with cachedExplores := inserted })

/-- The non-fatal tail of `createFromFile`: the `try { registerExplore ...;
try { registerInCatalog ... } catch {} } catch {}` block.  A caught throw of
either step (`exploreFails` / `catalogFails`) leaves the function to return the
already-persisted record. -/
def explorePhase (cfg : RunCfg) (projectUuid tableUuid wname tableName : String)
    (columns : List ColumnInference) (st : DBState) : DBState :=
  if cfg.exploreFails then st
  else
    let res := registerExplore cfg projectUuid tableUuid wname columns
      cfg.warehouseType st
    if cfg.catalogFails then res.2
    else
      match res.2.cachedExplores.find? (fun ce => ce.ceUuid = res.1) with
      | none => res.2
      | some ce => registerInCatalog projectUuid tableUuid tableName ce.explore wname res.2

/-- `AdhocTableService.createFromFile` (`part_005`-wired variant of `part_004`):
project check, parse, empty check, warehouse-table creation, metadata insert,
then the non-fatal explore registration with the nested non-fatal catalog
registration.  The pair's second component is the database state after the call;
`warehouseCalls` logs every `createTableFromData` attempt. -/
def createFromFile (cfg : RunCfg) (projectUuid userUuid : String)
    (req : CreateRequest) (papaData : List Row) (st : DBState) :
    Except AdhocError AdhocRow × DBState :=
  if cfg.projectExists = false then (.error .notFound, st)
  else
    match (if req.fileType = "csv" then parseCSV papaData else parseExcel papaData) with
    | .error e => (.error e, st)
    | .ok pr =>
      if pr.rows.length = 0 then (.error .emptyInput, st)
      else
        let wname := generateWarehouseTableName req.tableName userUuid cfg.timestamp36
        let st1 := { st with warehouseCalls := st.warehouseCalls ++ [wname] }
        if cfg.warehouseFails then (.error .warehouseCreation, st1)
        else
          let st2 := { st1 with warehouseTables := st1.warehouseTables ++ [wname] }
          let meta : FileMetadata :=
            { fileName := ⟨req.file.data.take 255⟩
              fileSize := req.file.length
              fileType := req.fileType
              columnCount := pr.columns.length
              rowCount := pr.rows.length }
          let row : AdhocRow :=
            { uuid := cfg.freshUuid
              projectUuid := projectUuid
              organizationUuid := cfg.organizationUuid
              name := req.tableName
              description := req.description
              warehouseTableName := wname
              warehouseType := cfg.warehouseType
              scope := req.scope
              retention := req.retention
              retentionDays := req.retentionDays
              createdBy := userUuid
              createdAt := cfg.now
              updatedAt := cfg.now
              deletedAt := none
              metadata := meta }
          let st3 := { st2 with adhocTables := st2.adhocTables ++ [row] }
          let st4 := explorePhase cfg projectUuid row.uuid wname req.tableName
            pr.columns st3
          (.ok row, st4)

/-- `AdhocTableService.getTable`: undeleted row by uuid, `null` otherwise. -/
def getTable (tableUuid : String) (st : DBState) : Option AdhocRow :=
  findUndeleted tableUuid st

structure ListOptions where
  scope : Option String
  includeDeleted : Bool
deriving DecidableEq, Repr

/-- `AdhocTableService.listByProject` (`part_004`): membership check, then
project rows with `deleted_at` null, filtered by the scope option
(`'personal'` → own rows, `'shared'` → rows whose stored scope is `'shared'`,
default → own or shared), newest first (ordering not modelled). -/
def listByProject (projectUuid userUuid : String) (options : ListOptions)
    (st : DBState) : Except AdhocError (List AdhocRow) :=
  if userCanAccessProject projectUuid userUuid st = false then .error .forbidden
  else
    let base := st.adhocTables.filter
      (fun r => r.projectUuid = projectUuid && r.deletedAt = none)
    let rows :=
      match options.scope with
      | some s =>
          if s = "personal" then base.filter (fun r => r.createdBy = userUuid)
          else if s = "shared" then base.filter (fun r => r.scope = "shared")
          else base.filter (fun r => r.createdBy = userUuid || r.scope = "shared")
      | none => base.filter (fun r => r.createdBy = userUuid || r.scope = "shared")
    .ok rows

/-- Nullify a hit row's tombstone:
`.where('uuid', tableUuid).update({deleted_at: now(), updated_at: now()})`. -/
def tombstone (tableUuid : String) (now : Nat) (r : AdhocRow) : AdhocRow :=
  if r.uuid = tableUuid then { r with deletedAt := some now, updatedAt := now } else r

/-- `AdhocTableService.deleteTable`: not-found check, owner check, soft delete,
then best-effort catalog removal (`catalogFails` marks a caught throw of the
removal step; the soft delete has already been applied either way). -/
def deleteTable (tableUuid userUuid : String) (catalogFails : Bool) (now : Nat)
    (st : DBState) : Except AdhocError DBState :=
  match getTable tableUuid st with
  | none => .error .notFound
  | some table =>
      if userCanDeleteTable tableUuid userUuid st = false then .error .forbidden
      else
        let st1 := { st with adhocTables := st.adhocTables.map (tombstone tableUuid now) }
        if catalogFails then .ok st1
        else .ok (removeFromCatalog table.projectUuid tableUuid st1)

/-! ## Concrete fixtures used by the counterexamples and witnesses -/

def emptyDB : DBState :=
  { adhocTables := []
    cachedExplores := []
    catalogSearch := []
    projectMemberships := []
    adhocAccess := []
    warehouseTables := []
    warehouseCalls := [] }

def exMeta : FileMetadata :=
  { fileName := "f", fileSize := 0, fileType := "csv", columnCount := 0, rowCount := 0 }

/-- A `scope = 'personal'` table `T` in project `P`, created by user `A`. -/
def personalRow : AdhocRow :=
  { uuid := "T"
    projectUuid := "P"
    organizationUuid := "O"
    name := "t"
    description := ""
    warehouseTableName := "wt"
    warehouseType := "postgres"
    scope := "personal"
    retention := "permanent"
    retentionDays := none
    createdBy := "A"
    createdAt := 0
    updatedAt := 0
    deletedAt := none
    metadata := exMeta }

/-- Project `P` with members `A` (the owner) and `B`; one personal table. -/
def grantDB : DBState :=
  { emptyDB with
    adhocTables := [personalRow]
    projectMemberships := [("P", "A"), ("P", "B")] }

def exExplore : Explore :=
  generateExplore "abcd1234" "T" "public.wt"
    [⟨"id", "number", true⟩, ⟨"active", "boolean", true⟩] "postgres"

/-- The same table together with its cached explore and catalog entries. -/
def delDB : DBState :=
  { grantDB with
    cachedExplores := [⟨"P", "T", "CE1", exExplore⟩]
    catalogSearch :=
      [⟨"P", "CE1", "wt", "table", "wt", "Uploaded table: t"⟩,
       ⟨"P", "CE1", "id", "field", "wt", "id"⟩,
       ⟨"P", "CE1", "row_count", "field", "wt", "Row Count"⟩] }

def exCfg : RunCfg :=
  { projectExists := true
    organizationUuid := "O"
    warehouseType := "postgres"
    warehouseFails := false
    exploreFails := false
    catalogFails := false
    freshUuid := "T1"
    freshCeUuid := "CE1"
    freshField := "abcd1234"
    timestamp36 := "t0"
    now := 5 }

def exReq : CreateRequest :=
  { file := "id,x\n1,2"
    fileName := "data.csv"
    fileType := "csv"
    tableName := "My Table"
    description := ""
    scope := "personal"
    retention := "permanent"
    retentionDays := none }

def exData : List Row := [[("id", "1"), ("x", "2")]]

def manyRows : List Row := List.replicate 101 [("x", "v")]

/-! ## Claim theorems -/

/-- C8: the warehouse-helper identifier sanitizer is required (by its own
`Ensure starts with letter or underscore` comment and by the spec) to be
idempotent, but it replaces a leading digit with an underscore before the
leading-underscore strip: sanitizing `"_1abc"` yields `"1abc"`, and sanitizing
that again yields `"abc"`, for the Postgres and the BigQuery routine alike. -/
theorem C8_sanitizer_not_idempotent :
    pgSanitizeColumnName "_1abc" = "1abc" ∧
    pgSanitizeColumnName (pgSanitizeColumnName "_1abc") = "abc" ∧
    pgSanitizeColumnName (pgSanitizeColumnName "_1abc") ≠ pgSanitizeColumnName "_1abc" ∧
    bqSanitizeColumnName (bqSanitizeColumnName "_1abc") ≠ bqSanitizeColumnName "_1abc" :=
  ⟨rfl, rfl, by decide, by decide⟩

/-- C9 counterexample: the warehouse-helper sanitizer strips the underscore it
substituted for a leading digit, so `"1abc"` sanitizes to `"abc"`, which does
not start with an underscore. -/
theorem C9_digit_name_counterexample :
    pgSanitizeColumnName "1abc" = "abc" ∧
    (pgSanitizeColumnName "1abc").data.head? ≠ some '_' :=
  ⟨rfl, by decide⟩

/-- C2: `createFromFile` persists `request.file.toString().slice(0, 255)` — the
uploaded file's contents — as `metadata.fileName`, while the request's unused
`fileName` field carries the actual name (`"data.csv"`). -/
theorem C2_fileName_holds_contents :
    ((createFromFile exCfg "P" "A" exReq exData emptyDB).1.map
        (fun r => r.metadata.fileName)) = Except.ok "id,x\n1,2" ∧
    exReq.fileName = "data.csv" ∧
    ("id,x\n1,2" : String) ≠ "data.csv" :=
  ⟨rfl, rfl, by decide⟩

/-- C7 counterexample: 101 rows, every one carrying a non-empty value for
column `x`; the sampler keeps only the first 100 rows, so the inferred column is
marked nullable even though no row has a missing or empty value. -/
theorem C7_over_100_rows_counterexample :
    (inferColumn manyRows "x").nullable = true ∧
    manyRows.all (fun row => isPresentNonEmpty (lookupCell row "x")) = true :=
  ⟨rfl, rfl⟩

/-- C10 counterexample: `"a b"` and `"a.b"` both sanitize to `"a_b"`, so the
dimension object keyed by sanitized names holds one dimension for the
two-column input, not one per column. -/
theorem C10_collision_counterexample :
    (generateExplore "abcd1234" "tbl" "public.t"
        [⟨"a b", "string", true⟩, ⟨"a.b", "string", true⟩] "postgres").dimensions.length = 1 ∧
    [(⟨"a b", "string", true⟩ : ColumnDefinition), ⟨"a.b", "string", true⟩].length = 2 ∧
    (1 : Nat) ≠ 2 :=
  ⟨rfl, rfl, by decide⟩

/-- C1 counterexample: in a project with members `A` (owner) and `B`, after the
owner grants `B` access to the `scope = 'personal'` table `T`, the grant row is
recorded but `userCanAccessTable` still returns `false` for `B`: it never reads
`adhoc_table_access`. -/
theorem C1_grant_counterexample :
    userCanAccessProject "P" "B" grantDB = true ∧
    (findUndeleted "T" grantDB).map (fun r => r.scope) = some "personal" ∧
    (grantTableAccess "T" "B" "A" grantDB).map (fun st => userCanAccessTable "T" "B" st)
      = Except.ok false :=
  ⟨rfl, rfl, rfl⟩

theorem digit_isFieldChar {c : Char} (h : isDigit09 c = true) : isFieldChar c = true := by
  unfold isFieldChar
  simp [h]

/-- C9 (amended): for every name that starts with a digit, the Explore schema
registrar's `sanitizeFieldName` output starts with a leading underscore (it
prefixes the underscore after stripping); the warehouse helpers'
`sanitizeColumnName` instead strips the substituted underscore, see the
counterexample. -/
theorem C9_fieldName_digit_underscore (fresh name : String) (c : Char) (t : List Char)
    (hdata : name.data = c :: t) (hd : isDigit09 c = true) :
    (sanitizeFieldName fresh name).data.head? = some '_' := by
  have hne := digit_not_underscore hd
  have h1 : ((lowerStr (c :: t)).map (fun a => if isFieldChar a then a else '_'))
      = c :: ((lowerStr t).map (fun a => if isFieldChar a then a else '_')) := by
    simp [lowerStr, digit_lowerChar hd, digit_isFieldChar hd]
  simp only [sanitizeFieldName, sanitizeFieldNameCore, hdata]
  rw [h1, collapseUnderscores_cons_of_ne hne, stripUnderscores_cons_of_ne hne]
  simp [hd]

/-- C9 witness: the amended statement applied to `"1abc"`. -/
theorem C9_fieldName_digit_underscore_witness :
    ("1abc" : String).data = '1' :: ['a', 'b', 'c'] ∧
    isDigit09 '1' = true ∧
    (sanitizeFieldName "zzzzzzzz" "1abc").data.head? = some '_' :=
  ⟨rfl, by decide,
    C9_fieldName_digit_underscore "zzzzzzzz" "1abc" '1' ['a', 'b', 'c'] rfl (by decide)⟩

/-- C6: whenever at least 80 percent of the sampled (non-null, non-empty)
values are boolean literals, `detectColumnType` classifies the column as
boolean; the boolean branch is tested before the date and number branches, so
this holds regardless of how many values also parse as numbers or dates. -/
theorem C6_boolean_threshold (values : List String) (hne : values ≠ [])
    (hbool : 4 * values.length ≤
      5 * (values.filter (fun v => isBooleanLiteral (normValue v))).length) :
    detectColumnType values = .boolean := by
  have hlen : ¬ values.length = 0 := fun h0 => hne (List.length_eq_zero.mp h0)
  unfold detectColumnType
  rw [if_neg hlen, if_pos hbool]

/-- C6 witness: a column of `0`/`1` values — every value is also numeric — is
classified as boolean. -/
theorem C6_boolean_threshold_witness :
    (["0", "1", "0", "1"] : List String) ≠ [] ∧
    4 * (["0", "1", "0", "1"] : List String).length ≤
      5 * ((["0", "1", "0", "1"] : List String).filter
        (fun v => isBooleanLiteral (normValue v))).length ∧
    detectColumnType ["0", "1", "0", "1"] = .boolean :=
  ⟨by decide, by decide, C6_boolean_threshold ["0", "1", "0", "1"] (by decide) (by decide)⟩

theorem length_filterMap_lt_iff {α β : Type} (f : α → Option β) (l : List α) :
    ((l.filterMap f).length < l.length) ↔ ∃ x ∈ l, f x = none := by
  induction l with
  | nil => simp
  | cons a t ih =>
      cases ha : f a with
      | none =>
          have hle := List.length_filterMap_le f t
          simp only [List.filterMap_cons, ha, List.length_cons, List.mem_cons]
          constructor
          · intro _
            exact ⟨a, Or.inl rfl, ha⟩
          · intro _
            omega
      | some b =>
          simp only [List.filterMap_cons, ha, List.length_cons, List.mem_cons]
          constructor
          · intro hlt
            rcases ih.mp (by omega) with ⟨x, hx, hfx⟩
            exact ⟨x, Or.inr hx, hfx⟩
          · rintro ⟨x, hx | hx, hfx⟩
            · exact absurd (hx ▸ hfx) (by simp [ha])
            · have := ih.mpr ⟨x, hx, hfx⟩
              omega

theorem sampleCell_none_iff (h : String) (row : Row) :
    sampleCell h row = none ↔ isPresentNonEmpty (lookupCell row h) = false := by
  unfold sampleCell isPresentNonEmpty
  cases lookupCell row h with
  | none => simp
  | some s => by_cases hs : s = "" <;> simp [hs]

/-- C7 (amended): the inferred nullable flag is set iff fewer sampled-and-filtered
values exist than total rows; because only the first 100 rows are sampled, this
coincides with "at least one row had a missing or empty value for the column"
exactly for inputs of at most 100 rows (the counterexample shows it diverges at
101 rows). -/
theorem C7_nullable_iff_missing (rows : List Row) (h : String)
    (hlen : rows.length ≤ 100) :
    ((inferColumn rows h).nullable = true ↔
      ∃ row ∈ rows, isPresentNonEmpty (lookupCell row h) = false) := by
  have htake : rows.take 100 = rows := List.take_of_length_le hlen
  unfold inferColumn
  simp only [sampleValuesFor, htake, decide_eq_true_eq]
  rw [length_filterMap_lt_iff]
  simp_rw [sampleCell_none_iff]

/-- C7 witness: the amended statement applied to a two-row input whose second
row has an empty cell. -/
theorem C7_nullable_iff_missing_witness :
    ([[("x", "v")], [("x", "")]] : List Row).length ≤ 100 ∧
    ((inferColumn [[("x", "v")], [("x", "")]] "x").nullable = true ↔
      ∃ row ∈ ([[("x", "v")], [("x", "")]] : List Row),
        isPresentNonEmpty (lookupCell row "x") = false) :=
  ⟨by decide, C7_nullable_iff_missing [[("x", "v")], [("x", "")]] "x" (by decide)⟩

/-- C1 (amended): for the undeleted row found for a table uuid,
`userCanAccessTable` returns true iff the principal is the creator, or the
row's stored scope string equals `'SHARED'` and the principal is a project
member; it is moreover independent of the `adhoc_table_access` grants, and since
the code stores scopes as lowercase `'personal'`/`'shared'`, a grant on a
personal table never makes the check true (see the counterexample). -/
theorem C1_access_rule (st : DBState) (t u : String) (r : AdhocRow)
    (hfind : findUndeleted t st = some r) :
    (userCanAccessTable t u st = true ↔
      (r.createdBy = u ∨
        (r.scope = "SHARED" ∧ userCanAccessProject r.projectUuid u st = true))) ∧
    (∀ acc, userCanAccessTable t u { st with adhocAccess := acc }
      = userCanAccessTable t u st) := by
  constructor
  · unfold userCanAccessTable
    rw [hfind]
    by_cases h1 : r.createdBy = u
    · simp [h1]
    · by_cases h2 : r.scope = "SHARED" <;> simp [h1, h2]
  · intro acc
    rfl

/-- C1 witness: the amended rule applied to the personal-table fixture. -/
theorem C1_access_rule_witness :
    findUndeleted "T" grantDB = some personalRow ∧
    ((userCanAccessTable "T" "B" grantDB = true ↔
      (personalRow.createdBy = "B" ∨
        (personalRow.scope = "SHARED" ∧
          userCanAccessProject personalRow.projectUuid "B" grantDB = true))) ∧
    (∀ acc, userCanAccessTable "T" "B" { grantDB with adhocAccess := acc }
      = userCanAccessTable "T" "B" grantDB)) :=
  ⟨rfl, C1_access_rule grantDB "T" "B" personalRow rfl⟩

/-- C3: when the parsed input has zero data rows, `createFromFile` (for an
existing project) fails with the empty-input error and returns the database
state untouched: no warehouse `createTableFromData` attempt is logged and no
`adhoc_tables` record is inserted — the emptiness check precedes every backend
call. -/
theorem C3_empty_parse_aborts (cfg : RunCfg) (p u : String) (req : CreateRequest)
    (st : DBState) (hproj : cfg.projectExists = true) :
    createFromFile cfg p u req [] st = (.error .emptyInput, st) := by
  unfold createFromFile
  rw [hproj]
  by_cases hft : req.fileType = "csv" <;> simp [hft, parseCSV, parseExcel]

/-- C3 witness: the statement applied to the concrete fixture request. -/
theorem C3_empty_parse_aborts_witness :
    exCfg.projectExists = true ∧
    createFromFile exCfg "P" "A" exReq [] emptyDB = (.error .emptyInput, emptyDB) :=
  ⟨rfl, C3_empty_parse_aborts exCfg "P" "A" exReq emptyDB rfl⟩

theorem upsert_keys_of_not_mem {α : Type} (l : List (String × α)) (k : String) (v : α)
    (h : k ∉ l.map Prod.fst) :
    (upsert l k v).map Prod.fst = l.map Prod.fst ++ [k] := by
  unfold upsert
  have hany : l.any (fun p => p.1 = k) = false := by
    cases hx : l.any (fun p => p.1 = k) with
    | false => rfl
    | true =>
        exfalso
        rcases List.any_eq_true.mp hx with ⟨p, hp, hpk⟩
        exact h (by
          rw [decide_eq_true_eq] at hpk
          exact hpk ▸ List.mem_map_of_mem Prod.fst hp)
  simp [hany]

def dimStep (fresh tname : String) (a : List (String × Dimension))
    (col : ColumnDefinition) : List (String × Dimension) :=
  upsert a (sanitizeFieldName fresh col.name) (mkDimension tname fresh col)

theorem foldl_upsert_keys (fresh tname : String) (cols : List ColumnDefinition) :
    ∀ (acc : List (String × Dimension)),
      (cols.map (fun c => sanitizeFieldName fresh c.name)).Nodup →
      (∀ k ∈ cols.map (fun c => sanitizeFieldName fresh c.name), k ∉ acc.map Prod.fst) →
      ((cols.foldl (dimStep fresh tname) acc).map Prod.fst)
        = acc.map Prod.fst ++ cols.map (fun c => sanitizeFieldName fresh c.name) := by
  induction cols with
  | nil =>
      intro acc _ _
      simp
  | cons c cs ih =>
      intro acc hnodup hdisj
      rw [List.map_cons, List.nodup_cons] at hnodup
      have hnd := hnodup
      have hknotin : sanitizeFieldName fresh c.name ∉ acc.map Prod.fst :=
        hdisj _ (by simp)
      have hkeys := upsert_keys_of_not_mem acc (sanitizeFieldName fresh c.name)
        (mkDimension tname fresh c) hknotin
      have hdisj2 : ∀ k ∈ cs.map (fun x => sanitizeFieldName fresh x.name),
          k ∉ (dimStep fresh tname acc c).map Prod.fst := by
        intro k hk
        unfold dimStep
        rw [hkeys]
        simp only [List.mem_append, List.mem_singleton]
        rintro (hmem | heq)
        · exact hdisj k (List.mem_cons_of_mem _ hk) hmem
        · exact hnd.1 (heq ▸ hk)
      simp only [List.foldl_cons, List.map_cons]
      rw [ih _ hnd.2 hdisj2]
      unfold dimStep
      rw [hkeys]
      simp

/-- C10 (amended): `generateExplore` produces one dimension per distinct
sanitized column name — in particular exactly one dimension per input column,
keyed by the sanitized name, whenever the sanitized names are pairwise distinct
(colliding names overwrite one another, see the counterexample) — plus exactly
one built-in `row_count` metric of aggregate type `count`. -/
theorem C10_explore_shape (fresh uuid tname wt : String) (cols : List ColumnDefinition)
    (hnodup : (cols.map (fun c => sanitizeFieldName fresh c.name)).Nodup) :
    ((generateExplore fresh uuid tname cols wt).dimensions.map Prod.fst
        = cols.map (fun c => sanitizeFieldName fresh c.name)) ∧
    (generateExplore fresh uuid tname cols wt).dimensions.length = cols.length ∧
    (generateExplore fresh uuid tname cols wt).metrics.map Prod.fst = ["row_count"] ∧
    ∀ m ∈ (generateExplore fresh uuid tname cols wt).metrics, m.2.metricType = "count" := by
  have hkeys := foldl_upsert_keys fresh tname cols [] hnodup (by simp)
  have hdims : (generateExplore fresh uuid tname cols wt).dimensions.map Prod.fst
      = cols.map (fun c => sanitizeFieldName fresh c.name) := by
    simpa [generateExplore, generateDimensions, dimStep] using hkeys
  refine ⟨hdims, ?_, rfl, ?_⟩
  · have hlen := congrArg List.length hdims
    simpa using hlen
  · intro m hm
    simp only [generateExplore, generateMetrics, List.mem_singleton] at hm
    rw [hm]

def cols3 : List ColumnDefinition :=
  [⟨"id", "number", true⟩, ⟨"active", "boolean", true⟩, ⟨"signup_date", "date", true⟩]

/-- C10 witness: the `id`, `active`, `signup_date` upload yields three
dimensions and the single `row_count` count metric. -/
theorem C10_explore_shape_witness :
    (cols3.map (fun c => sanitizeFieldName "abcd1234" c.name)).Nodup ∧
    (((generateExplore "abcd1234" "tbl" "public.t" cols3 "postgres").dimensions.map Prod.fst
        = cols3.map (fun c => sanitizeFieldName "abcd1234" c.name)) ∧
     (generateExplore "abcd1234" "tbl" "public.t" cols3 "postgres").dimensions.length
        = cols3.length ∧
     (generateExplore "abcd1234" "tbl" "public.t" cols3 "postgres").metrics.map Prod.fst
        = ["row_count"] ∧
     ∀ m ∈ (generateExplore "abcd1234" "tbl" "public.t" cols3 "postgres").metrics,
       m.2.metricType = "count") :=
  ⟨by decide, C10_explore_shape "abcd1234" "tbl" "public.t" "postgres" cols3 (by decide)⟩

/-! ### Preservation lemmas: the explore/catalog phase never touches the
`adhoc_tables` rows or the created warehouse tables. -/

theorem registerExplore_keeps (cfg : RunCfg) (p a w : String)
    (columns : List ColumnInference) (wt : String) (st : DBState) :
    (registerExplore cfg p a w columns wt st).2.adhocTables = st.adhocTables ∧
    (registerExplore cfg p a w columns wt st).2.warehouseTables = st.warehouseTables := by
  unfold registerExplore
  cases hfind : st.cachedExplores.find?
      (fun ce => ce.projectUuid = p && ce.name = a) with
  | none => exact ⟨rfl, rfl⟩
  | some ce => exact ⟨rfl, rfl⟩

theorem foldl_keeps {β : Type} (f : DBState → β → DBState)
    (hf : ∀ s d, (f s d).adhocTables = s.adhocTables ∧
      (f s d).warehouseTables = s.warehouseTables) :
    ∀ (l : List β) (s : DBState),
      (l.foldl f s).adhocTables = s.adhocTables ∧
      (l.foldl f s).warehouseTables = s.warehouseTables := by
  intro l
  induction l with
  | nil => intro s; exact ⟨rfl, rfl⟩
  | cons a t ih =>
      intro s
      simp only [List.foldl_cons]
      exact ⟨(ih (f s a)).1.trans (hf s a).1, (ih (f s a)).2.trans (hf s a).2⟩

theorem registerInCatalog_keeps (p a tn : String) (e : Explore) (btn : String)
    (st : DBState) :
    (registerInCatalog p a tn e btn st).adhocTables = st.adhocTables ∧
    (registerInCatalog p a tn e btn st).warehouseTables = st.warehouseTables := by
  unfold registerInCatalog
  cases hfind : st.cachedExplores.find?
      (fun ce => ce.projectUuid = p && ce.name = a) with
  | none => exact ⟨rfl, rfl⟩
  | some ce =>
      dsimp only
      have hm := foldl_keeps (catFieldStep p ce.ceUuid btn) (fun s d => ⟨rfl, rfl⟩)
        (e.metrics.map (fun m => (m.2.name, m.2.label)))
      have hd := foldl_keeps (catFieldStep p ce.ceUuid btn) (fun s d => ⟨rfl, rfl⟩)
        (e.dimensions.map (fun d => (d.2.name, d.2.label)))
      exact ⟨(hm _).1.trans (hd _).1, (hm _).2.trans (hd _).2⟩

theorem explorePhase_keeps (cfg : RunCfg) (p a w tn : String)
    (columns : List ColumnInference) (st : DBState) :
    (explorePhase cfg p a w tn columns st).adhocTables = st.adhocTables ∧
    (explorePhase cfg p a w tn columns st).warehouseTables = st.warehouseTables := by
  unfold explorePhase
  by_cases h1 : cfg.exploreFails
  · simp [h1]
  · simp only [if_neg h1]
    by_cases h2 : cfg.catalogFails
    · simp only [if_pos h2]
      exact registerExplore_keeps cfg p a w columns cfg.warehouseType st
    · simp only [if_neg h2]
      cases hfind : (registerExplore cfg p a w columns cfg.warehouseType st).2.cachedExplores.find?
          (fun ce => ce.ceUuid = (registerExplore cfg p a w columns cfg.warehouseType st).1) with
      | none => exact registerExplore_keeps cfg p a w columns cfg.warehouseType st
      | some ce =>
          have hr := registerExplore_keeps cfg p a w columns cfg.warehouseType st
          have hc := registerInCatalog_keeps p a tn ce.explore w
            (registerExplore cfg p a w columns cfg.warehouseType st).2
          exact ⟨hc.1.trans hr.1, hc.2.trans hr.2⟩

/-- C5: once the warehouse table has been created and the metadata record
persisted, `createFromFile` returns the persisted record even when the explore
registration or the catalog indexing throws (`exploreFails` / `catalogFails`
arbitrary in `cfg`): the record and the created warehouse table remain in the
final state, and the returned row is the persisted one. -/
theorem C5_degraded_success (cfg : RunCfg) (p u : String) (req : CreateRequest)
    (papaData : List Row) (st : DBState)
    (hproj : cfg.projectExists = true) (hwh : cfg.warehouseFails = false)
    (hdata : papaData ≠ []) :
    ∃ row st2, createFromFile cfg p u req papaData st = (.ok row, st2) ∧
      row ∈ st2.adhocTables ∧
      row.warehouseTableName ∈ st2.warehouseTables ∧
      row.deletedAt = none ∧
      row.metadata.rowCount = papaData.length := by
  have hlen : ¬ papaData.length = 0 := fun h0 => hdata (List.length_eq_zero.mp h0)
  unfold createFromFile
  rw [hproj]
  simp only [Bool.true_eq_false, if_false]
  have hparse : (if req.fileType = "csv" then parseCSV papaData else parseExcel papaData)
      = .ok ⟨(papaData.headD []).map Prod.fst, papaData,
          inferColumnTypes papaData ((papaData.headD []).map Prod.fst)⟩ := by
    by_cases hft : req.fileType = "csv" <;>
      simp [hft, parseCSV, parseExcel, hlen]
  rw [hparse]
  simp only [if_neg hlen, hwh, Bool.false_eq_true, if_false]
  refine ⟨_, _, rfl, ?_, ?_, rfl, rfl⟩
  · rw [(explorePhase_keeps cfg p _ _ req.tableName _ _).1]
    simp
  · rw [(explorePhase_keeps cfg p _ _ req.tableName _ _).2]
    simp

/-- C5 witness: the statement applied to the fixture upload. -/
theorem C5_degraded_success_witness :
    ({ exCfg with exploreFails := true } : RunCfg).projectExists = true ∧
    ({ exCfg with exploreFails := true } : RunCfg).warehouseFails = false ∧
    exData ≠ [] ∧
    (∃ row st2, createFromFile { exCfg with exploreFails := true } "P" "A" exReq exData emptyDB
        = (.ok row, st2) ∧
      row ∈ st2.adhocTables ∧
      row.warehouseTableName ∈ st2.warehouseTables ∧
      row.deletedAt = none ∧
      row.metadata.rowCount = exData.length) :=
  ⟨rfl, rfl, by decide,
    C5_degraded_success { exCfg with exploreFails := true } "P" "A" exReq exData emptyDB
      rfl rfl (by decide)⟩

theorem tombstone_cases (t : String) (now : Nat) (r : AdhocRow) :
    (tombstone t now r).uuid ≠ t ∨ (tombstone t now r).deletedAt = some now := by
  unfold tombstone
  by_cases h : r.uuid = t
  · rw [if_pos h]
    right
    rfl
  · rw [if_neg h]
    left
    exact h

theorem removeFromCatalog_adhocTables (p t : String) (st : DBState) :
    (removeFromCatalog p t st).adhocTables = st.adhocTables := by
  unfold removeFromCatalog
  cases hfind : st.cachedExplores.find?
      (fun ce => ce.projectUuid = p && ce.name = t) with
  | none => rfl
  | some ce => rfl

theorem getTable_tombstoned_none (t : String) (now : Nat) (st : DBState)
    (s2 : DBState) (hs2 : s2.adhocTables = st.adhocTables.map (tombstone t now)) :
    getTable t s2 = none := by
  unfold getTable findUndeleted
  rw [hs2, List.find?_eq_none]
  intro x hx
  rcases List.mem_map.mp hx with ⟨y, _, hxy⟩
  rcases tombstone_cases t now y with hne | hdel
  · subst hxy
    simp [hne]
  · subst hxy
    simp [hdel]

theorem listByProject_no_tombstoned (t : String) (now : Nat) (st : DBState)
    (s2 : DBState) (hs2 : s2.adhocTables = st.adhocTables.map (tombstone t now)) :
    ∀ p2 u2 opts rows, listByProject p2 u2 opts s2 = .ok rows →
      ∀ row ∈ rows, row.uuid ≠ t := by
  intro p2 u2 opts rows hres row hrow
  unfold listByProject at hres
  by_cases hacc : userCanAccessProject p2 u2 s2 = false
  · rw [if_pos hacc] at hres
    exact absurd hres (by simp)
  · rw [if_neg hacc] at hres
    simp only [Except.ok.injEq] at hres
    subst hres
    have hrowbase : row ∈ s2.adhocTables.filter
        (fun x => x.projectUuid = p2 && x.deletedAt = none) := by
      cases hsc : opts.scope with
      | none =>
          rw [hsc] at hrow
          dsimp only at hrow
          exact (List.mem_filter.mp hrow).1
      | some s =>
          rw [hsc] at hrow
          dsimp only at hrow
          by_cases h1 : s = "personal"
          · rw [if_pos h1] at hrow
            exact (List.mem_filter.mp hrow).1
          · rw [if_neg h1] at hrow
            by_cases h2 : s = "shared"
            · rw [if_pos h2] at hrow
              exact (List.mem_filter.mp hrow).1
            · rw [if_neg h2] at hrow
              exact (List.mem_filter.mp hrow).1
    have hmem := (List.mem_filter.mp hrowbase).1
    have hcond := (List.mem_filter.mp hrowbase).2
    rw [Bool.and_eq_true, decide_eq_true_eq, decide_eq_true_eq] at hcond
    rw [hs2] at hmem
    rcases List.mem_map.mp hmem with ⟨y, _, hxy⟩
    rcases tombstone_cases t now y with hne | hdel
    · exact hxy ▸ hne
    · intro _
      rw [← hxy] at hcond
      rw [hdel] at hcond
      exact Option.noConfusion hcond.2

/-- C4: deleting a live table as its owner always succeeds: afterwards the
table is gone from `getTable` and from every `listByProject` result, yet the
`adhoc_tables` row itself is still present (same row count) with `deleted_at`
set; when the catalog removal is not interrupted, no `catalog_search` entry
owned by the table's cached explore survives; and a caught catalog-removal
failure (`catalogFails = true`) still leaves the soft delete completed. -/
theorem C4_soft_delete (st : DBState) (t u : String) (r : AdhocRow)
    (hfind : findUndeleted t st = some r) (hown : r.createdBy = u)
    (b : Bool) (now : Nat) :
    ∃ st2, deleteTable t u b now st = .ok st2 ∧
      getTable t st2 = none ∧
      (∀ p2 u2 opts rows, listByProject p2 u2 opts st2 = .ok rows →
        ∀ row ∈ rows, row.uuid ≠ t) ∧
      (∃ row ∈ st2.adhocTables, row.uuid = t ∧ row.deletedAt = some now) ∧
      st2.adhocTables.length = st.adhocTables.length ∧
      (b = false → ∀ ce, st.cachedExplores.find?
          (fun x => x.projectUuid = r.projectUuid && x.name = t) = some ce →
        ∀ e ∈ st2.catalogSearch,
          ¬(e.projectUuid = r.projectUuid ∧ e.ceUuid = ce.ceUuid)) := by
  have hpred := List.find?_some hfind
  rw [Bool.and_eq_true, decide_eq_true_eq, decide_eq_true_eq] at hpred
  have hmem := List.mem_of_find?_eq_some hfind
  have hcan : userCanDeleteTable t u st = true := by
    unfold userCanDeleteTable
    rw [hfind]
    simp [hown]
  have hdel : deleteTable t u b now st =
      .ok (if b then { st with adhocTables := st.adhocTables.map (tombstone t now) }
        else removeFromCatalog r.projectUuid t
          { st with adhocTables := st.adhocTables.map (tombstone t now) }) := by
    unfold deleteTable getTable
    rw [hfind, hcan]
    cases b <;> simp
  have hAdh : ∀ s2 : DBState,
      (if b then { st with adhocTables := st.adhocTables.map (tombstone t now) }
        else removeFromCatalog r.projectUuid t
          { st with adhocTables := st.adhocTables.map (tombstone t now) }) = s2 →
      s2.adhocTables = st.adhocTables.map (tombstone t now) := by
    intro s2 hs2
    cases b with
    | true =>
        rw [if_pos rfl] at hs2
        rw [← hs2]
    | false =>
        rw [if_neg (by simp)] at hs2
        rw [← hs2]
        exact removeFromCatalog_adhocTables r.projectUuid t _
  refine ⟨_, hdel.trans rfl, ?_, ?_, ?_, ?_, ?_⟩
  · exact getTable_tombstoned_none t now st _ (hAdh _ rfl)
  · exact listByProject_no_tombstoned t now st _ (hAdh _ rfl)
  · refine ⟨tombstone t now r, ?_, ?_, ?_⟩
    · rw [hAdh _ rfl]
      exact List.mem_map_of_mem _ hmem
    · simp [tombstone, hpred.1]
    · simp [tombstone, hpred.1]
  · rw [hAdh _ rfl]
    simp
  · intro hb ce hce e he
    subst hb
    rw [if_neg (by simp)] at he
    unfold removeFromCatalog at he
    have hce2 : ({ st with adhocTables := st.adhocTables.map (tombstone t now) } :
        DBState).cachedExplores.find?
        (fun x => x.projectUuid = r.projectUuid && x.name = t) = some ce := hce
    rw [hce2] at he
    have hfilter := List.of_mem_filter he
    intro hcontra
    rw [hcontra.1, hcontra.2] at hfilter
    simp at hfilter

/-- C4 witness: the statement applied to the fixture database with a cached
explore and three catalog entries. -/
theorem C4_soft_delete_witness :
    findUndeleted "T" delDB = some personalRow ∧
    personalRow.createdBy = "A" ∧
    (∃ st2, deleteTable "T" "A" false 7 delDB = .ok st2 ∧
      getTable "T" st2 = none ∧
      (∀ p2 u2 opts rows, listByProject p2 u2 opts st2 = .ok rows →
        ∀ row ∈ rows, row.uuid ≠ "T") ∧
      (∃ row ∈ st2.adhocTables, row.uuid = "T" ∧ row.deletedAt = some 7) ∧
      st2.adhocTables.length = delDB.adhocTables.length ∧
      (false = false → ∀ ce, delDB.cachedExplores.find?
          (fun x => x.projectUuid = personalRow.projectUuid && x.name = "T") = some ce →
        ∀ e ∈ st2.catalogSearch,
          ¬(e.projectUuid = personalRow.projectUuid ∧ e.ceUuid = ce.ceUuid))) :=
  ⟨rfl, rfl, C4_soft_delete delDB "T" "A" personalRow rfl rfl false 7⟩

end Adhoc
